import Mathlib

/-!
Verification of the dindin-quant-bot backtesting and signal-evaluation core.

The per-bar decision logic of the two strategies (`MfiHunter` in
`src/backtest_strategy.py` and `DashboardStrategy` in `src/dashboard.py`) is
embedded shallowly: machine floats become exact rationals, and a strategy's
`next` method becomes a pure function from the state it reads (equity,
position size, last close, last MFI value) to the list of orders it issues
on that bar, in program order.

Parts of the repository that the spec covers but whose code is not present
in this checkout (the Ledger/Runner loop provided by the `backtesting`
library, the statistics aggregation of `BacktestService`, the MFI indicator
of `src.core.indicators.mfi`, and the construction-time configuration
validation of `src.core.strategies`) are modelled from the spec; each such
definition carries a doc comment starting `Modelled from the spec:`.
-/

/-- Tunable parameters of `MfiHunter` (class attributes in
`src/backtest_strategy.py`: `mfi_period = 16`, `buy_level = 35`,
`sell_level = 85`). -/
structure MfiHunterParams where
  mfi_period : ℕ := 16
  buy_level : ℚ := 35
  sell_level : ℚ := 85
deriving DecidableEq

/-- The state visible to `MfiHunter.next` on one bar: total equity
(`self.equity`), current position size in shares (`self.position.size`),
the bar's closing price (`self.data.Close[-1]`) and the current MFI value
(`self.mfi[-1]`). -/
structure StratState where
  equity : ℚ
  position_size : ℚ
  close : ℚ
  mfi : ℚ
deriving DecidableEq

/-- An order issued by a strategy on one bar: `buy f` is `self.buy(size=f)`
(a fraction `f` of equity), `close` is `self.position.close()` (full
liquidation). -/
inductive Order where
  | buy (size : ℚ)
  | close
deriving DecidableEq

/-- Shallow embedding of `MfiHunter.next` (`src/backtest_strategy.py`): the
list of orders issued on one bar, in program order.  The source returns
early when `self.equity == 0`; otherwise it computes
`position_value = self.position.size * self.data.Close[-1]` and
`current_pct = position_value / self.equity`; if in a position and
`self.mfi[-1] > self.sell_level` it closes and returns; otherwise, when
`current_pct < 0.8`, it runs its tiered entry block — which the source
spells out twice, verbatim (both `if mfi < 20 ... elif mfi < buy_level ...`
blocks execute). -/
def MfiHunter.next (p : MfiHunterParams) (s : StratState) : List Order :=
  if s.equity = 0 then []
  else
    let position_value := s.position_size * s.close
    let current_pct := position_value / s.equity
    if s.position_size ≠ 0 ∧ p.sell_level < s.mfi then [Order.close]
    else if current_pct < 0.8 then
      (if s.mfi < 20 then [Order.buy 0.3]
       else if s.mfi < p.buy_level then [Order.buy 0.15]
       else [])
      ++
      (if s.mfi < 20 then [Order.buy 0.3]
       else if s.mfi < p.buy_level then [Order.buy 0.15]
       else [])
    else []

/-- Division that reports a zero denominator instead of Lean's total
`x / 0 = 0` convention; used to show the source never reaches a
division-by-zero. -/
def safeDiv (a b : ℚ) : Option ℚ :=
  if b = 0 then none else some (a / b)

/-- `MfiHunter.next` with its single division (`position_value /
self.equity`) routed through `safeDiv`; a `none` result would mean the
source attempted a division by zero on that bar. -/
def MfiHunter.nextChecked (p : MfiHunterParams) (s : StratState) :
    Option (List Order) :=
  if s.equity = 0 then some []
  else
    match safeDiv (s.position_size * s.close) s.equity with
    | none => none
    | some current_pct =>
      some
        (if s.position_size ≠ 0 ∧ p.sell_level < s.mfi then [Order.close]
         else if current_pct < 0.8 then
           (if s.mfi < 20 then [Order.buy 0.3]
            else if s.mfi < p.buy_level then [Order.buy 0.15]
            else [])
           ++
           (if s.mfi < 20 then [Order.buy 0.3]
            else if s.mfi < p.buy_level then [Order.buy 0.15]
            else [])
         else [])

/-- C1: on a bar where the entry logic runs (equity nonzero, no position,
hence fraction `0 < 0.8`, and no exit) with MFI `10 < 20`, the source
issues the strong-buy order twice — the duplicated tier block emits
`buy(size=0.3)` in both copies — contradicting "at most one Buy order on
that bar". -/
theorem MfiHunter.duplicate_strong_buy :
    MfiHunter.next {}
      { equity := 1000000, position_size := 0, close := 100, mfi := 10 }
      = [Order.buy 0.3, Order.buy 0.3] := by
  norm_num [MfiHunter.next]

/-- C2: on a bar with nonzero equity where the strategy holds a position and
MFI exceeds `sell_level`, `MfiHunter.next` issues exactly the full close and
nothing else: the early `return` means no entry logic runs on that bar. -/
theorem MfiHunter.exit_takes_priority (p : MfiHunterParams) (s : StratState)
    (he : s.equity ≠ 0) (hp : s.position_size ≠ 0)
    (hm : p.sell_level < s.mfi) :
    MfiHunter.next p s = [Order.close] := by
  simp [MfiHunter.next, he, hp, hm]

theorem MfiHunter.exit_takes_priority_witness :
    MfiHunter.next {}
      { equity := 1000000, position_size := 50, close := 100, mfi := 90 }
      = [Order.close] :=
  MfiHunter.exit_takes_priority {} _ (by norm_num) (by norm_num) (by norm_num)

/-- C4: on any bar whose current position fraction
(`position_value / equity`) is at least 0.8, `MfiHunter.next` issues no Buy
order, whatever the MFI value: the entry block is guarded by
`current_pct < 0.8`. -/
theorem MfiHunter.position_cap (p : MfiHunterParams) (s : StratState)
    (h : (0.8 : ℚ) ≤ s.position_size * s.close / s.equity) :
    ∀ f, Order.buy f ∉ MfiHunter.next p s := by
  intro f
  by_cases he : s.equity = 0
  · simp [MfiHunter.next, he]
  · by_cases hx : s.position_size ≠ 0 ∧ p.sell_level < s.mfi
    · simp [MfiHunter.next, he, hx]
    · simp [MfiHunter.next, he, hx, not_lt.mpr h]

theorem MfiHunter.position_cap_witness :
    Order.buy 0.3 ∉ MfiHunter.next {}
      { equity := 1000, position_size := 9, close := 100, mfi := 10 } :=
  MfiHunter.position_cap {} _ (by norm_num) 0.3

/-- C9: `MfiHunter.nextChecked` — the same decision procedure with its
division guarded — never reports a division by zero and agrees with
`MfiHunter.next` on every input: the `self.equity == 0` early return is
evaluated before `position_value / self.equity` is. -/
theorem MfiHunter.no_division_by_zero (p : MfiHunterParams) (s : StratState) :
    MfiHunter.nextChecked p s = some (MfiHunter.next p s) := by
  by_cases he : s.equity = 0
  · simp [MfiHunter.nextChecked, MfiHunter.next, he]
  · simp [MfiHunter.nextChecked, MfiHunter.next, safeDiv, he]

/-- `MfiHunter.next` reading its inputs the way the source does: the whole
Close history and the whole MFI history are in scope (`self.data`,
`self.mfi`), but only the last element of each is consulted
(`self.data.Close[-1]`, `self.mfi[-1]`). -/
def MfiHunter.nextOnHistory (p : MfiHunterParams) (closes mfis : List ℚ)
    (equity position_size : ℚ) : List Order :=
  MfiHunter.next p
    { equity := equity, position_size := position_size,
      close := closes.getLast?.getD 0, mfi := mfis.getLast?.getD 0 }

/-- Parameters of `DashboardStrategy` (`src/dashboard.py`; the class
defaults `mfi_period = 14`, `buy_level = 30`, `sell_level = 80` are
overwritten from the sidebar sliders before the backtest runs). -/
structure DashboardParams where
  mfi_period : ℕ := 14
  buy_level : ℚ := 30
  sell_level : ℚ := 80
deriving DecidableEq

/-- An order issued by `DashboardStrategy` on one bar: `buy` is
`self.buy()` (no size argument), `close` is `self.position.close()`. -/
inductive DashOrder where
  | buy
  | close
deriving DecidableEq

/-- Shallow embedding of `DashboardStrategy.next` (`src/dashboard.py`):
`if not self.position and self.mfi[-1] < self.buy_level: self.buy()`
`elif self.position and self.mfi[-1] > self.sell_level:
self.position.close()`. -/
def DashboardStrategy.next (p : DashboardParams) (mfi position_size : ℚ) :
    List DashOrder :=
  if position_size = 0 ∧ mfi < p.buy_level then [DashOrder.buy]
  else if position_size ≠ 0 ∧ p.sell_level < mfi then [DashOrder.close]
  else []

/-- C10: `DashboardStrategy.next` never issues a Buy while a position is
open — the buy branch is guarded by `not self.position` — so it never adds
to an existing position. -/
theorem DashboardStrategy.no_pyramiding (p : DashboardParams)
    (mfi position_size : ℚ) (h : position_size ≠ 0) :
    DashOrder.buy ∉ DashboardStrategy.next p mfi position_size := by
  by_cases hs : p.sell_level < mfi
  · simp [DashboardStrategy.next, h, hs]
  · simp [DashboardStrategy.next, h, hs]

theorem DashboardStrategy.no_pyramiding_witness :
    DashOrder.buy ∉ DashboardStrategy.next {} 5 3 :=
  DashboardStrategy.no_pyramiding {} 5 3 (by norm_num)

/-- A closed trade, per the spec's data model (§3 Trade):
`{entry_bar_index, exit_bar_index, entry_price, exit_price, size, pnl}`. -/
structure Trade where
  entry_bar_index : ℕ
  exit_bar_index : ℕ
  entry_price : ℚ
  exit_price : ℚ
  size : ℚ
  pnl : ℚ
deriving DecidableEq

/-- Modelled from the spec: the Portfolio/Equity Ledger state (§3
LedgerState, §4.3).  The concrete ledger is supplied by the `backtesting`
library, which is not part of this repository's sources; the spec's fields
are `{cash, position (shares, average cost basis), equity_peak, trade_log}`
plus the per-bar `equity_curve` of the BacktestResult. -/
structure Ledger where
  cash : ℚ
  shares : ℚ
  cost_basis : ℚ
  entry_bar : ℕ
  equity_peak : ℚ
  trade_log : List Trade
  equity_curve : List ℚ
deriving DecidableEq

/-- One bar of runner input: the bar's closing price together with the
precomputed MFI value for that bar (the indicator series is computed in
full before the loop starts, §2/§5). -/
structure RunnerBar where
  close : ℚ
  mfi : ℚ
deriving DecidableEq

/-- Modelled from the spec: `apply_buy` and `apply_sell` of the Ledger
(§4.3), applied to one order.  `apply_buy`: cash to deploy =
size_fraction × current total equity, shares purchased =
(cash × (1 − commission_rate)) / price, no-op when available cash is
insufficient.  `apply_sell` (full close): net proceeds =
shares × price × (1 − commission_rate), records a Trade with realized
pnl = proceeds − cost basis of the sold shares. -/
def applyOrder (commission_rate : ℚ) (bar_index : ℕ) (price : ℚ)
    (led : Ledger) : Order → Ledger
  | Order.buy f =>
      let equity := led.cash + led.shares * price
      let deploy := f * equity
      if led.cash < deploy then led
      else
        let new_shares := deploy * (1 - commission_rate) / price
        let total := led.shares + new_shares
        { led with
          cash := led.cash - deploy,
          shares := total,
          cost_basis :=
            if total = 0 then 0
            else (led.shares * led.cost_basis + deploy) / total,
          entry_bar := if led.shares = 0 then bar_index else led.entry_bar }
  | Order.close =>
      let proceeds := led.shares * price * (1 - commission_rate)
      { led with
        cash := led.cash + proceeds,
        shares := 0,
        cost_basis := 0,
        trade_log := led.trade_log ++
          [{ entry_bar_index := led.entry_bar, exit_bar_index := bar_index,
             entry_price := led.cost_basis, exit_price := price,
             size := led.shares,
             pnl := proceeds - led.shares * led.cost_basis }] }

/-- Modelled from the spec: one iteration of the Backtest Runner loop
(§4.4): (1) build the state the strategy reads from the Ledger and the
bar, (2) call the strategy, (3) apply the resulting orders to the Ledger,
(4) mark to market at the bar's close (update the running equity peak and
append to the equity curve). -/
def stepBar (p : MfiHunterParams) (commission_rate : ℚ) (bar_index : ℕ)
    (led : Ledger) (bar : RunnerBar) : Ledger :=
  let equity := led.cash + led.shares * bar.close
  let orders := MfiHunter.next p
    { equity := equity, position_size := led.shares,
      close := bar.close, mfi := bar.mfi }
  let led1 := orders.foldl (applyOrder commission_rate bar_index bar.close) led
  let marked := led1.cash + led1.shares * bar.close
  { led1 with
    equity_peak := max led1.equity_peak marked,
    equity_curve := led1.equity_curve ++ [marked] }

/-- Modelled from the spec: the Backtest Runner's bar-by-bar loop (§4.4),
driving `stepBar` over the input series in chronological order. -/
def runBars (p : MfiHunterParams) (commission_rate : ℚ) (led : Ledger)
    (bar_index : ℕ) : List RunnerBar → Ledger
  | [] => led
  | bar :: rest =>
      runBars p commission_rate (stepBar p commission_rate bar_index led bar)
        (bar_index + 1) rest

/-- Modelled from the spec: the initial Ledger state (§4.4): cash =
initial_capital, no position. -/
def initLedger (initial_capital : ℚ) : Ledger :=
  { cash := initial_capital, shares := 0, cost_basis := 0, entry_bar := 0,
    equity_peak := initial_capital, trade_log := [], equity_curve := [] }

/-- Modelled from the spec: win_rate_pct of the Statistics Aggregator
(§4.5): `100 × (count of trades with pnl > 0) / (count of trades), 0 if no
trades (not NaN)`.  The concrete aggregation lives in the repository's
`BacktestService`, which is not present under `src/`. -/
def winRatePct (trade_log : List Trade) : ℚ :=
  if trade_log.length = 0 then 0
  else 100 * (((trade_log.filter fun t => 0 < t.pnl).length : ℚ) /
    (trade_log.length : ℚ))

/-- Modelled from the spec: max_drawdown_pct of the Statistics Aggregator
(§4.5): 100 × the maximum over time of `1 − equity[t] / running_peak_at_t`,
as a positive magnitude. -/
def maxDrawdownGo (peak acc : ℚ) : List ℚ → ℚ
  | [] => acc
  | e :: rest =>
      let peak1 := max peak e
      let dd := if peak1 ≤ 0 then 0 else 100 * (1 - e / peak1)
      maxDrawdownGo peak1 (max acc dd) rest

/-- Modelled from the spec: max drawdown over an equity curve (§4.5). -/
def maxDrawdownPct (equity_curve : List ℚ) : ℚ :=
  maxDrawdownGo 0 0 equity_curve

/-- The spec's BacktestResult record (§3): `{final_equity, return_pct,
max_drawdown_pct, win_rate_pct, num_trades, equity_curve}`. -/
structure BacktestResult where
  final_equity : ℚ
  return_pct : ℚ
  max_drawdown_pct : ℚ
  win_rate_pct : ℚ
  num_trades : ℕ
  equity_curve : List ℚ
deriving DecidableEq

/-- Modelled from the spec: the Statistics Aggregator (§4.5) applied to a
finished Ledger: return_pct = 100 × (final_equity / initial_capital − 1),
num_trades = length of trade_log. -/
def mkResult (initial_capital : ℚ) (led : Ledger) : BacktestResult :=
  let fe := led.equity_curve.getLast?.getD initial_capital
  { final_equity := fe,
    return_pct := 100 * (fe / initial_capital - 1),
    max_drawdown_pct := maxDrawdownPct led.equity_curve,
    win_rate_pct := winRatePct led.trade_log,
    num_trades := led.trade_log.length,
    equity_curve := led.equity_curve }

/-- Modelled from the spec: a complete backtest run (§4.4 + §4.5): start
from the initial Ledger, fold the strategy over every bar, aggregate
statistics. -/
def runBacktest (p : MfiHunterParams) (commission_rate initial_capital : ℚ)
    (bars : List RunnerBar) : BacktestResult :=
  mkResult initial_capital
    (runBars p commission_rate (initLedger initial_capital) 0 bars)

theorem applyOrder_equity_curve (c : ℚ) (i : ℕ) (price : ℚ) (led : Ledger)
    (o : Order) : (applyOrder c i price led o).equity_curve =
      led.equity_curve := by
  cases o with
  | buy f => simp only [applyOrder]; split <;> rfl
  | close => rfl

theorem foldl_applyOrder_equity_curve (c : ℚ) (i : ℕ) (price : ℚ)
    (os : List Order) (led : Ledger) :
    (os.foldl (applyOrder c i price) led).equity_curve = led.equity_curve := by
  induction os generalizing led with
  | nil => rfl
  | cons o rest ih => rw [List.foldl_cons, ih, applyOrder_equity_curve]

theorem applyOrder_trade_log_aux (c : ℚ) (i : ℕ) (price : ℚ) (led : Ledger)
    (o : Order) : led.trade_log.length ≤
      (applyOrder c i price led o).trade_log.length := by
  cases o with
  | buy f => simp only [applyOrder]; split <;> simp
  | close => simp [applyOrder]

theorem stepBar_equity_curve_length (p : MfiHunterParams) (c : ℚ) (i : ℕ)
    (led : Ledger) (bar : RunnerBar) :
    (stepBar p c i led bar).equity_curve.length =
      led.equity_curve.length + 1 := by
  simp [stepBar, foldl_applyOrder_equity_curve]

theorem runBars_equity_curve_length (p : MfiHunterParams) (c : ℚ)
    (led : Ledger) (i : ℕ) (bars : List RunnerBar) :
    (runBars p c led i bars).equity_curve.length =
      led.equity_curve.length + bars.length := by
  induction bars generalizing led i with
  | nil => simp [runBars]
  | cons bar rest ih =>
      rw [runBars, ih, stepBar_equity_curve_length, List.length_cons]
      omega

/-- C3: the bankrupt guard: on any bar where total equity is exactly zero
`MfiHunter.next` returns before evaluating any entry signal and issues no
orders; and the runner still completes the run, producing one
mark-to-market equity snapshot for every bar of the input series. -/
theorem MfiHunter.bankrupt_guard :
    (∀ (p : MfiHunterParams) (s : StratState), s.equity = 0 →
      MfiHunter.next p s = []) ∧
    (∀ (p : MfiHunterParams) (c : ℚ) (led : Ledger) (i : ℕ)
      (bars : List RunnerBar),
      (runBars p c led i bars).equity_curve.length =
        led.equity_curve.length + bars.length) := by
  refine ⟨fun p s h => by simp [MfiHunter.next, h], ?_⟩
  exact runBars_equity_curve_length

theorem MfiHunter.bankrupt_guard_witness :
    MfiHunter.next {}
      { equity := 0, position_size := 5, close := 100, mfi := 10 } = [] ∧
    (runBars {} 0 (initLedger 1000000) 0
      [{ close := 100, mfi := 50 }]).equity_curve.length = 1 :=
  ⟨MfiHunter.bankrupt_guard.1 {} _ rfl,
   by rw [MfiHunter.bankrupt_guard.2]; rfl⟩

/-- C6: the per-bar decision is a pure function of the state it reads: two
histories agreeing on their last Close and last MFI values (with equal
equity and position size) yield identical orders; and replaying the
identical bar sequence and configuration through the runner twice yields
identical BacktestResult values. -/
theorem MfiHunter.deterministic_replay :
    (∀ (p : MfiHunterParams) (c1 c2 m1 m2 : List ℚ) (e q : ℚ),
      c1.getLast? = c2.getLast? → m1.getLast? = m2.getLast? →
      MfiHunter.nextOnHistory p c1 m1 e q =
        MfiHunter.nextOnHistory p c2 m2 e q) ∧
    (∀ (p : MfiHunterParams) (c cap : ℚ) (bars : List RunnerBar),
      runBacktest p c cap bars = runBacktest p c cap bars) := by
  refine ⟨fun p c1 c2 m1 m2 e q h1 h2 => ?_, fun p c cap bars => rfl⟩
  unfold MfiHunter.nextOnHistory
  rw [h1, h2]

theorem MfiHunter.deterministic_replay_witness :
    MfiHunter.nextOnHistory {} [50, 100] [40, 10] 1000000 0 =
      MfiHunter.nextOnHistory {} [100] [70, 10] 1000000 0 :=
  MfiHunter.deterministic_replay.1 {} [50, 100] [100] [40, 10] [70, 10]
    1000000 0 rfl rfl

/-- C8: any run whose trade log is empty reports win_rate_pct = 0 (the
aggregator's zero-trades branch), not NaN and not an error. -/
theorem winRatePct_zero_when_no_trades
    (p : MfiHunterParams) (c cap : ℚ) (bars : List RunnerBar)
    (h : (runBacktest p c cap bars).num_trades = 0) :
    (runBacktest p c cap bars).win_rate_pct = 0 := by
  simp [runBacktest, mkResult] at h ⊢
  simp [winRatePct, h]

theorem winRatePct_zero_when_no_trades_witness :
    (runBacktest {} 0 1000000 [{ close := 100, mfi := 50 }]).win_rate_pct
      = 0 :=
  winRatePct_zero_when_no_trades {} 0 1000000 [{ close := 100, mfi := 50 }]
    (by norm_num [runBacktest, mkResult, runBars, stepBar, MfiHunter.next,
      initLedger])

/-- The spec's construction-time configuration error (§7 ConfigError). -/
inductive ConfigError where
  | invalid_threshold_order
deriving DecidableEq

/-- The validated core configuration of §6 (threshold parameters only). -/
structure CoreConfig where
  buy_threshold : ℚ
  sell_threshold : ℚ
  rsi_oversold : ℚ
  rsi_overbought : ℚ
deriving DecidableEq

/-- Modelled from the spec: construction-time validation of the strategy
configuration (§7: invalid threshold ordering — buy_threshold ≥
sell_threshold, or oversold ≥ overbought — is rejected at construction
time, before any bar is processed).  The validating constructor belongs to
the strategy/service modules that `src/src/presentation/dashboard/app.py`
imports (`src.core.strategies`, `src.application.services`), which are not
present under `src/`. -/
def mkCoreConfig (buy sell oversold overbought : ℚ) :
    Except ConfigError CoreConfig :=
  if sell ≤ buy then Except.error ConfigError.invalid_threshold_order
  else if overbought ≤ oversold then
    Except.error ConfigError.invalid_threshold_order
  else Except.ok
    { buy_threshold := buy, sell_threshold := sell,
      rsi_oversold := oversold, rsi_overbought := overbought }

/-- C5: any configuration with an invalid threshold ordering
(buy_threshold ≥ sell_threshold, or oversold ≥ overbought) is rejected by
the constructor with a configuration error; no bar is ever processed since
no configuration value is produced. -/
theorem mkCoreConfig_rejects_invalid_order (buy sell oversold overbought : ℚ)
    (h : sell ≤ buy ∨ overbought ≤ oversold) :
    mkCoreConfig buy sell oversold overbought =
      Except.error ConfigError.invalid_threshold_order := by
  rcases h with h | h
  · simp [mkCoreConfig, h]
  · by_cases h1 : sell ≤ buy
    · simp [mkCoreConfig, h1]
    · simp [mkCoreConfig, h1, h]

theorem mkCoreConfig_rejects_invalid_order_witness :
    mkCoreConfig 85 35 30 70 =
      Except.error ConfigError.invalid_threshold_order :=
  mkCoreConfig_rejects_invalid_order 85 35 30 70 (Or.inl (by norm_num))

/-- One OHLCV bar as consumed by the indicator calculator (§3 Bar; the
timestamp and opening price are not read by the MFI computation and are
omitted). -/
structure Bar where
  high : ℚ
  low : ℚ
  close : ℚ
  volume : ℚ
deriving DecidableEq

/-- Modelled from the spec: typical price = (high + low + close) / 3
(§4.1). -/
def typicalPrice (b : Bar) : ℚ := (b.high + b.low + b.close) / 3

/-- Modelled from the spec: raw money flow = typical price × volume
(§4.1). -/
def rawMoneyFlow (b : Bar) : ℚ := typicalPrice b * b.volume

/-- Modelled from the spec: classification of one bar's money flow against
its previous bar (§4.1): the flow counts as positive if the typical price
rose, negative if it fell, and an unchanged typical price contributes to
neither sum.  The result is the (positive, negative) contribution of the
current bar. -/
def flowPair (pc : Bar × Bar) : ℚ × ℚ :=
  if typicalPrice pc.1 < typicalPrice pc.2 then (rawMoneyFlow pc.2, 0)
  else if typicalPrice pc.2 < typicalPrice pc.1 then (0, rawMoneyFlow pc.2)
  else (0, 0)

/-- The (previous, current) bar pairs whose classified money flows form the
trailing window of length P ending at index i; the series' first bar has no
predecessor and contributes no flow. -/
def mfWindow (P : ℕ) (bars : List Bar) (i : ℕ) : List (Bar × Bar) :=
  ((bars.zip bars.tail).drop (i - P)).take (i - (i - P))

/-- Modelled from the spec: the positive money-flow sum over the trailing
window (§4.1). -/
def positiveSum (P : ℕ) (bars : List Bar) (i : ℕ) : ℚ :=
  ((mfWindow P bars i).map fun pc => (flowPair pc).1).sum

/-- Modelled from the spec: the negative money-flow sum over the trailing
window (§4.1). -/
def negativeSum (P : ℕ) (bars : List Bar) (i : ℕ) : ℚ :=
  ((mfWindow P bars i).map fun pc => (flowPair pc).2).sum

/-- Modelled from the spec: the MFI series entry at index i (§4.1).  The
first P − 1 entries are undefined (warm-up), as are indices beyond the end
of the input; otherwise MFI = 100 × positive_sum / (positive_sum +
negative_sum) over the trailing P bars, and when the negative sum is 0 the
value is 100 with no division performed.  The indicator implementation the
repository actually calls (`ta.mfi` of pandas_ta in `src/calc_mfi.py`, and
`src.core.indicators.mfi`) is not present under `src/`. -/
def mfiAt (P : ℕ) (bars : List Bar) (i : ℕ) : Option ℚ :=
  if i + 1 < P ∨ bars.length ≤ i then none
  else
    let ps := positiveSum P bars i
    let ns := negativeSum P bars i
    some (if ns = 0 then 100 else 100 * ps / (ps + ns))

theorem typicalPrice_nonneg (b : Bar) (h1 : 0 ≤ b.high) (h2 : 0 ≤ b.low)
    (h3 : 0 ≤ b.close) : 0 ≤ typicalPrice b := by
  unfold typicalPrice
  positivity

theorem rawMoneyFlow_nonneg (b : Bar) (h1 : 0 ≤ b.high) (h2 : 0 ≤ b.low)
    (h3 : 0 ≤ b.close) (h4 : 0 ≤ b.volume) : 0 ≤ rawMoneyFlow b :=
  mul_nonneg (typicalPrice_nonneg b h1 h2 h3) h4

theorem flowPair_nonneg (pc : Bar × Bar) (h : 0 ≤ rawMoneyFlow pc.2) :
    0 ≤ (flowPair pc).1 ∧ 0 ≤ (flowPair pc).2 := by
  unfold flowPair
  split
  · exact ⟨h, le_refl 0⟩
  · split
    · exact ⟨le_refl 0, h⟩
    · exact ⟨le_refl 0, le_refl 0⟩

theorem mem_mfWindow_snd_mem (P : ℕ) (bars : List Bar) (i : ℕ)
    (pc : Bar × Bar) (h : pc ∈ mfWindow P bars i) : pc.2 ∈ bars := by
  have h1 : pc ∈ bars.zip bars.tail :=
    List.drop_subset _ _ (List.take_subset _ _ h)
  obtain ⟨a, b⟩ := pc
  exact List.mem_of_mem_tail (List.of_mem_zip h1).2

theorem positiveSum_nonneg (P : ℕ) (bars : List Bar) (i : ℕ)
    (hb : ∀ b ∈ bars, 0 ≤ b.high ∧ 0 ≤ b.low ∧ 0 ≤ b.close ∧ 0 ≤ b.volume) :
    0 ≤ positiveSum P bars i := by
  apply List.sum_nonneg
  intro x hx
  obtain ⟨pc, hpc, rfl⟩ := List.mem_map.mp hx
  have hc := hb _ (mem_mfWindow_snd_mem P bars i pc hpc)
  exact (flowPair_nonneg pc
    (rawMoneyFlow_nonneg _ hc.1 hc.2.1 hc.2.2.1 hc.2.2.2)).1

theorem negativeSum_nonneg (P : ℕ) (bars : List Bar) (i : ℕ)
    (hb : ∀ b ∈ bars, 0 ≤ b.high ∧ 0 ≤ b.low ∧ 0 ≤ b.close ∧ 0 ≤ b.volume) :
    0 ≤ negativeSum P bars i := by
  apply List.sum_nonneg
  intro x hx
  obtain ⟨pc, hpc, rfl⟩ := List.mem_map.mp hx
  have hc := hb _ (mem_mfWindow_snd_mem P bars i pc hpc)
  exact (flowPair_nonneg pc
    (rawMoneyFlow_nonneg _ hc.1 hc.2.1 hc.2.2.1 hc.2.2.2)).2

/-- C7: for every bar sequence with nonnegative OHLCV fields and every
period P ≥ 2, each defined entry of the MFI series lies in [0,100]; when
the trailing negative money-flow sum is zero the entry equals 100 exactly;
and whenever the quotient branch is taken its divisor positive_sum +
negative_sum is nonzero, so the computation never divides by zero. -/
theorem mfi_defined_in_range (P : ℕ) (bars : List Bar) (_hP : 2 ≤ P)
    (hb : ∀ b ∈ bars, 0 ≤ b.high ∧ 0 ≤ b.low ∧ 0 ≤ b.close ∧ 0 ≤ b.volume)
    (i : ℕ) (v : ℚ) (hv : mfiAt P bars i = some v) :
    (0 ≤ v ∧ v ≤ 100) ∧
    (negativeSum P bars i = 0 → v = 100) ∧
    (negativeSum P bars i ≠ 0 →
      positiveSum P bars i + negativeSum P bars i ≠ 0) := by
  unfold mfiAt at hv
  by_cases hdef : i + 1 < P ∨ bars.length ≤ i
  · simp [hdef] at hv
  · simp only [hdef, if_false] at hv
    have hp := positiveSum_nonneg P bars i hb
    have hn := negativeSum_nonneg P bars i hb
    obtain hv := Option.some_injective _ hv
    by_cases hz : negativeSum P bars i = 0
    · rw [if_pos hz] at hv
      subst hv
      exact ⟨by norm_num, fun _ => rfl, fun hc => absurd hz hc⟩
    · rw [if_neg hz] at hv
      subst hv
      have hnpos : 0 < negativeSum P bars i := lt_of_le_of_ne hn (Ne.symm hz)
      have hpn : 0 < positiveSum P bars i + negativeSum P bars i :=
        add_pos_of_nonneg_of_pos hp hnpos
      refine ⟨⟨div_nonneg (by linarith) hpn.le, ?_⟩,
        fun hc => absurd hc hz, fun _ => ne_of_gt hpn⟩
      rw [div_le_iff₀ hpn]
      linarith

theorem mfi_defined_in_range_witness :
    ((0 ≤ (100 : ℚ) ∧ (100 : ℚ) ≤ 100) ∧
      (negativeSum 2 [⟨1, 1, 1, 1⟩, ⟨2, 2, 2, 1⟩] 1 = 0 → (100 : ℚ) = 100) ∧
      (negativeSum 2 [⟨1, 1, 1, 1⟩, ⟨2, 2, 2, 1⟩] 1 ≠ 0 →
        positiveSum 2 [⟨1, 1, 1, 1⟩, ⟨2, 2, 2, 1⟩] 1 +
          negativeSum 2 [⟨1, 1, 1, 1⟩, ⟨2, 2, 2, 1⟩] 1 ≠ 0)) :=
  mfi_defined_in_range 2 [⟨1, 1, 1, 1⟩, ⟨2, 2, 2, 1⟩] (by norm_num)
    (by
      intro b hb
      simp only [List.mem_cons, List.mem_singleton, List.not_mem_nil,
        or_false] at hb
      rcases hb with h | h <;> subst h <;> norm_num)
    1 100
    (by norm_num [mfiAt, positiveSum, negativeSum, mfWindow, flowPair,
      typicalPrice, rawMoneyFlow])
